import Mathlib

/-! Verification of the cache-refresh protocol and the format-string engine of
ticker.py, the Python backend of the Ticker Vim plugin.  The module is
embedded shallowly: Python dictionaries become insertion-ordered association
lists, the remote quote source becomes an explicit function argument, times
become rationals (whole seconds once they pass through the fixed-width
TIME_FORMAT round trip), floats are carried as a rational value paired with
the text that str() produces for them, and raised exceptions become error
values of an explicit error type. -/

/-- Python dict with string keys, as an insertion-ordered association list. -/
abbrev Dict (α : Type) := List (String × α)

/-- Python dict lookup d[k]; none models the KeyError on a missing key. -/
def dictGet {α : Type} : Dict α → String → Option α
  | [], _ => none
  | (k', v) :: d, k => if k' = k then some v else dictGet d k

/-- Python dict assignment d[k] = v: overwrite the existing entry in place,
otherwise append a new entry at the end. -/
def dictSet {α : Type} : Dict α → String → α → Dict α
  | [], k, v => [(k, v)]
  | (k', v') :: d, k, v => if k' = k then (k, v) :: d else (k', v') :: dictSet d k v

/-- Python del d[k] for the dicts used here, whose keys are unique. -/
def dictDel {α : Type} : Dict α → String → Dict α
  | [], _ => []
  | (k', v') :: d, k => if k' = k then d else (k', v') :: dictDel d k

/-- The keys of a dict, in insertion order. -/
def dictKeys {α : Type} (d : Dict α) : List String := d.map Prod.fst

/-- Python set(a) == set(b) on two lists of symbols. -/
def symSetEq (a b : List String) : Bool :=
  (a.all fun x => decide (x ∈ b)) && (b.all fun x => decide (x ∈ a))

/-- A JSON scalar inside a quote record: a string, or a number carried as its
rational value together with the text str() renders it as. -/
inductive PyVal where
  | pstr (s : String)
  | pnum (q : ℚ) (rep : String)
deriving DecidableEq

/-- The text str() produces for a value. -/
def PyVal.toStr : PyVal → String
  | .pstr s => s
  | .pnum _ rep => rep

/-- A quote record: the finnhub wire dict, plus the stamped ticker key. -/
abbrev QuoteRec := Dict PyVal

/-- A top-level value of the cache-file JSON object.  The next_update entry
is a TIME_FORMAT string, carried here as the whole-second time it denotes
(strptime succeeds on it); jstr is a string strptime rejects (ValueError);
every well-formed quote entry is a record object. -/
inductive JVal where
  | jtime (t : ℤ)
  | jstr (s : String)
  | jrec (r : QuoteRec)
deriving DecidableEq

/-- The on-disk quote-cache file: missing, unreadable as JSON (decode error),
or decoded into a top-level object. -/
inductive CacheFile where
  | absent
  | malformed
  | valid (obj : Dict JVal)
deriving DecidableEq

/-- Exceptions the embedded code can raise. -/
inductive PyErr where
  | keyError
  | typeError
  | valueError
  | fetchError
deriving DecidableEq

/-- World state threaded through the cache operations: the cache file and
how many quote-source invocations have been made. -/
structure St where
  file : CacheFile
  fetchCount : Nat
deriving DecidableEq

/-- The external quote source: api key and symbol to a wire record, none for
a fetch failure (a raised finnhub exception). -/
abbrev QuoteSource := String → String → Option QuoteRec

/-- get_rest_quote: fetch a quote and stamp the 'ticker' key onto it.  The
invocation is counted even when it fails. -/
def get_rest_quote (src : QuoteSource) (rest_api_key ticker : String) (st : St) :
    Option QuoteRec × St :=
  ((src rest_api_key ticker).map fun q => dictSet q "ticker" (PyVal.pstr ticker),
   ⟨st.file, st.fetchCount + 1⟩)

/-- calc_next_update: now plus the refresh interval (minutes, fractional
allowed), truncated to whole seconds because TIME_FORMAT has second
precision (strftime drops the microseconds; strptime reads them back as 0). -/
def calc_next_update (refresh_interval_minutes now : ℚ) : ℤ :=
  Int.floor (now + 60 * refresh_interval_minutes)

/-- The fetch loop of update_cache: add one fetched quote per ticker to the
accumulated dict, aborting at the first failure; only when the whole loop
succeeds is the assembled snapshot written to the cache file, as one write. -/
def updateCacheLoop (src : QuoteSource) (key : String) :
    List String → Dict JVal → St → Except PyErr (Dict JVal) × St
  | [], acc, st => (Except.ok acc, ⟨CacheFile.valid acc, st.fetchCount⟩)
  | t :: ts, acc, st =>
    match get_rest_quote src key t st with
    | (none, st') => (Except.error PyErr.fetchError, st')
    | (some q, st') => updateCacheLoop src key ts (dictSet acc t (JVal.jrec q)) st'

/-- update_cache: compute the next-update stamp, fetch every tracked ticker
in order, and persist the assembled snapshot (the fetched quotes plus the
next_update bookkeeping entry inserted first) after the loop completes. -/
def update_cache (src : QuoteSource) (key : String)
    (refresh_interval_minutes now : ℚ) (tickers : List String) (st : St) :
    Except PyErr (Dict JVal) × St :=
  updateCacheLoop src key tickers
    [("next_update", JVal.jtime (calc_next_update refresh_interval_minutes now))] st

/-- One step of the stamping loop of get_cached_quotes,
quotes[t]['ticker'] = t: a missing key is a KeyError, a non-dict value a
TypeError (item assignment on it fails). -/
def stampOne (quotes : Dict JVal) (t : String) : Except PyErr (Dict JVal) :=
  match dictGet quotes t with
  | none => Except.error PyErr.keyError
  | some (JVal.jrec r) =>
      Except.ok (dictSet quotes t (JVal.jrec (dictSet r "ticker" (PyVal.pstr t))))
  | some _ => Except.error PyErr.typeError

/-- The stamping loop of get_cached_quotes, over the tracked tickers. -/
def stampAll : Dict JVal → List String → Except PyErr (Dict JVal)
  | quotes, [] => Except.ok quotes
  | quotes, t :: ts =>
    match stampOne quotes t with
    | Except.ok q' => stampAll q' ts
    | Except.error e => Except.error e

/-- The tail of get_cached_quotes: refresh everything via update_cache, then
delete the next_update bookkeeping key from the returned dict. -/
def refreshAndStrip (src : QuoteSource) (key : String)
    (interval now : ℚ) (tickers : List String) (st : St) :
    Except PyErr (Dict JVal) × St :=
  match update_cache src key interval now tickers st with
  | (Except.ok q, st') => (Except.ok (dictDel q "next_update"), st')
  | (Except.error e, st') => (Except.error e, st')

/-- get_cached_quotes: read the snapshot if the file exists; a JSON decode
error is reported and treated as no snapshot; otherwise quotes['next_update']
is parsed (KeyError when the key is missing, TypeError/ValueError when its
value is not a TIME_FORMAT string) and deleted; if the remaining dict is
non-empty and its key set equals the tracked set, every record is stamped
with its ticker and, when the deadline is still in the future, returned;
every other path falls through to a forced refresh. -/
def get_cached_quotes (src : QuoteSource) (key : String)
    (interval now : ℚ) (tickers : List String) (st : St) :
    Except PyErr (Dict JVal) × St :=
  match st.file with
  | CacheFile.absent => refreshAndStrip src key interval now tickers st
  | CacheFile.malformed => refreshAndStrip src key interval now tickers st
  | CacheFile.valid obj =>
    match dictGet obj "next_update" with
    | none => (Except.error PyErr.keyError, st)
    | some (JVal.jstr _) => (Except.error PyErr.valueError, st)
    | some (JVal.jrec _) => (Except.error PyErr.typeError, st)
    | some (JVal.jtime nu) =>
      let quotes := dictDel obj "next_update"
      if quotes ≠ [] ∧ symSetEq (dictKeys quotes) tickers = true then
        match stampAll quotes tickers with
        | Except.error e => (Except.error e, st)
        | Except.ok stamped =>
          if now < (nu : ℚ) then (Except.ok stamped, st)
          else refreshAndStrip src key interval now tickers st
      else refreshAndStrip src key interval now tickers st

/-! The format-specifier engine (class FmtStringParser).  FMT_PATTERN is a
regex; since its digit runs are greedy and none of the specifier letters is
a digit, a minus sign or a dot, backtracking can never produce a match that
the deterministic left-to-right scan below misses, so the two agree.  The
scan recognizes the ASCII digits 0-9 (the claims exercise no other Unicode
digits). -/

/-- One parsed format specifier: the named groups of FMT_PATTERN. -/
structure FmtSpec where
  minus : Bool
  width : Option Nat
  prec : Option Nat
  spec : Char
deriving DecidableEq

/-- The one-letter field specifiers accepted by FMT_PATTERN. -/
def specChar (c : Char) : Bool :=
  c == 'c' || c == 'd' || c == 'p' || c == 'h' || c == 'l' || c == 'o' ||
  c == 'C' || c == 't' || c == '%'

/-- int() on a run of decimal digits. -/
def digitsToNat (ds : List Char) : Nat :=
  ds.foldl (fun n c => 10 * n + (c.toNat - '0'.toNat)) 0

/-- Strip the optional right-justify flag '-'. -/
def stripMinus : List Char → Bool × List Char
  | '-' :: r => (true, r)
  | r => (false, r)

/-- Match the part of FMT_PATTERN after the leading '%': optional '-',
optional width digits, optional '.' plus precision digits, then exactly one
specifier letter.  Returns the parsed specifier and the characters after the
match. -/
def matchTail (rest : List Char) : Option (FmtSpec × List Char) :=
  let m := stripMinus rest
  let wd := m.2.takeWhile Char.isDigit
  let width : Option Nat := if wd = [] then none else some (digitsToNat wd)
  match m.2.dropWhile Char.isDigit with
  | '.' :: r3 =>
    if r3.takeWhile Char.isDigit = [] then none
    else
      match r3.dropWhile Char.isDigit with
      | c :: r5 =>
        if specChar c then
          some (⟨m.1, width, some (digitsToNat (r3.takeWhile Char.isDigit)), c⟩, r5)
        else none
      | [] => none
  | c :: r3 => if specChar c then some (⟨m.1, width, none, c⟩, r3) else none
  | [] => none

/-- Match one whole format specifier at the head of the character list. -/
def matchSpec : List Char → Option (FmtSpec × List Char)
  | '%' :: rest => matchTail rest
  | _ => none

/-- The specifier_to_key table of process_specifier. -/
def specifier_to_key (c : Char) : String :=
  if c = 'c' then "c" else if c = 'd' then "d" else if c = 'p' then "dp"
  else if c = 'h' then "h" else if c = 'l' then "l" else if c = 'o' then "o"
  else if c = 'C' then "pc" else if c = 't' then "ticker" else "%"

/-- Step 1 of process_specifier: precision handling, applied only when a
precision was written and the stringified value contains a decimal point.
Pads with '0' when the text has too few digits after the point, otherwise
truncates the text (textual truncation, not numeric rounding). -/
def applyPrec : Option Nat → List Char → List Char
  | none, s => s
  | some p, s =>
    if '.' ∈ s then
      let d := (s.takeWhile (· != '.')).length
      if s.length - d - 1 < p then s ++ List.replicate (p - (s.length - d - 1)) '0'
      else s.take (d + 1 + p)
    else s

/-- Step 2 of process_specifier: width handling; longer strings are truncated
to the width, shorter ones are space-padded, on the left when the '-'
(right-justify) flag is present and on the right otherwise. -/
def applyWidth : Option Nat → Bool → List Char → List Char
  | none, _, s => s
  | some w, minus, s =>
    if w < s.length then s.take w
    else
      if minus then List.replicate (w - s.length) ' ' ++ s
      else s ++ List.replicate (w - s.length) ' '

/-- process_specifier: first inject the literal-percent key into the quote
record (a real mutation of the caller's dict in the source), then look up
the field selected by the specifier letter, stringify it, and apply the
precision and width steps.  none models the KeyError on a missing field. -/
def process_specifier (qd : QuoteRec) (sp : FmtSpec) : Option (String × QuoteRec) :=
  let qd2 := dictSet qd "%" (PyVal.pstr "%")
  match dictGet qd2 (specifier_to_key sp.spec) with
  | none => none
  | some v =>
    some (String.mk (applyWidth sp.width sp.minus (applyPrec sp.prec v.toStr.toList)), qd2)

/-- The scanning loop of FmtStringParser.parse: copy literal characters,
render each specifier match, and continue after it.  The fuel argument only
bounds the number of scan steps; parse supplies the length of the format
string, which always suffices because every step consumes at least one
character (see parseAux_fuel below), so the zero-fuel branch is never taken. -/
def parseAux : Nat → QuoteRec → List Char → Option (String × QuoteRec)
  | _, qd, [] => some ("", qd)
  | 0, _, _ :: _ => none
  | fuel + 1, qd, c :: cs =>
    match matchSpec (c :: cs) with
    | some (sp, rest) =>
      match process_specifier qd sp with
      | none => none
      | some (s, qd2) =>
        match parseAux fuel qd2 rest with
        | none => none
        | some (t, qd3) => some (s ++ t, qd3)
    | none =>
      match parseAux fuel qd cs with
      | none => none
      | some (t, qd2) => some (String.mk [c] ++ t, qd2)

/-- FmtStringParser.parse: render a whole format string against one quote
record, returning the rendered text and the record as the call leaves it. -/
def parse (qd : QuoteRec) (fmt : String) : Option (String × QuoteRec) :=
  parseAux fmt.toList.length qd fmt.toList

/-- The classification written into the result of get_ticker_data:
0 if quotes[quote]['dp'] < 0.0 else 1. -/
def classify (dp : ℚ) : Nat := if dp < 0 then 0 else 1

/-- The rendering loop of get_ticker_data: for each quote, render its format
string and record res[formatted] = classification.  Every value reaching
this loop is a record object on both paths of get_cached_quotes; a non-dict
value could not be rendered and is modelled as a TypeError. -/
def tickerLoop (portfolio : Dict String) :
    Dict JVal → Dict Nat → Except PyErr (Dict Nat)
  | [], res => Except.ok res
  | (sym, v) :: rest, res =>
    match dictGet portfolio sym with
    | none => Except.error PyErr.keyError
    | some fmt =>
      match v with
      | JVal.jrec r =>
        match parse r fmt with
        | none => Except.error PyErr.keyError
        | some (formatted, r') =>
          match dictGet r' "dp" with
          | some (PyVal.pnum dp _) =>
              tickerLoop portfolio rest (dictSet res formatted (classify dp))
          | some (PyVal.pstr _) => Except.error PyErr.typeError
          | none => Except.error PyErr.keyError
      | _ => Except.error PyErr.typeError

/-- get_ticker_data: fetch the cached-or-refreshed quotes for the portfolio
keys and render each into a map from display string to 0 (down) or 1 (up). -/
def get_ticker_data (src : QuoteSource) (key : String)
    (interval now : ℚ) (portfolio : Dict String) (st : St) :
    Except PyErr (Dict Nat) × St :=
  match get_cached_quotes src key interval now (dictKeys portfolio) st with
  | (Except.error e, st') => (Except.error e, st')
  | (Except.ok quotes, st') => (tickerLoop portfolio quotes [], st')

/-- Equality of embedded results (needed to evaluate runs of the embedded
code on concrete inputs). -/
instance {ε α : Type} [DecidableEq ε] [DecidableEq α] (a b : Except ε α) :
    Decidable (a = b) :=
  match a, b with
  | Except.ok x, Except.ok y => decidable_of_iff (x = y) (by simp)
  | Except.error x, Except.error y => decidable_of_iff (x = y) (by simp)
  | Except.ok _, Except.error _ => isFalse (by simp)
  | Except.error _, Except.ok _ => isFalse (by simp)

/-- The per-entry effect of the stamping loop on an entry whose key is in the
tracked list: overwrite the record's 'ticker' field with the entry's key. -/
def stampVal (p : String × JVal) : String × JVal :=
  match p.2 with
  | JVal.jrec r => (p.1, JVal.jrec (dictSet r "ticker" (PyVal.pstr p.1)))
  | _ => p

/-- stampVal applied only to the entries whose key the stamping loop visits. -/
def stampOn (ts : List String) (p : String × JVal) : String × JVal :=
  if p.1 ∈ ts then stampVal p else p

/-- The dict updateCacheLoop assembles when every fetch succeeds. -/
def buildAcc (src : QuoteSource) (key : String) : List String → Dict JVal → Dict JVal
  | [], acc => acc
  | t :: ts, acc =>
      buildAcc src key ts
        (dictSet acc t (JVal.jrec (dictSet ((src key t).getD []) "ticker" (PyVal.pstr t))))

/-- The rational value 47.08 of the sample quote, built directly in lowest
terms: the decimal-literal and arithmetic paths into Rat do not reduce in
the kernel, while the constructor form below does. -/
def ratC : ℚ := ⟨1177, 25, by decide, by decide⟩

/-- 1.32 as a rational in lowest terms. -/
def ratD : ℚ := ⟨33, 25, by decide, by decide⟩

/-- 2.8846 as a rational in lowest terms. -/
def ratDp : ℚ := ⟨14423, 5000, by decide, by decide⟩

/-- 47.116 as a rational in lowest terms. -/
def ratH : ℚ := ⟨11779, 250, by decide, by decide⟩

/-- 46.02 as a rational in lowest terms. -/
def ratL : ℚ := ⟨2301, 50, by decide, by decide⟩

/-- 46.48 as a rational in lowest terms. -/
def ratO : ℚ := ⟨1162, 25, by decide, by decide⟩

/-- 45.76 as a rational in lowest terms. -/
def ratPc : ℚ := ⟨1144, 25, by decide, by decide⟩

/-- The sample quote record from the module's self-test block. -/
def sampleQuote : QuoteRec :=
  [("c", PyVal.pnum ratC "47.08"),
   ("d", PyVal.pnum ratD "1.32"),
   ("dp", PyVal.pnum ratDp "2.8846"),
   ("h", PyVal.pnum ratH "47.116"),
   ("l", PyVal.pnum ratL "46.02"),
   ("o", PyVal.pnum ratO "46.48"),
   ("pc", PyVal.pnum ratPc "45.76"),
   ("t", PyVal.pnum (1703192401 : ℚ) "1703192401")]

/-- A quote source whose every fetch succeeds with a one-field record. -/
def srcStub : QuoteSource := fun _ _ => some [("dp", PyVal.pnum (1 : ℚ) "1")]

/-- A quote source whose every fetch fails. -/
def srcFail : QuoteSource := fun _ _ => none

/-- A fresh one-symbol snapshot, deadline at time 100. -/
def objAAPL : Dict JVal :=
  [("next_update", JVal.jtime 100),
   ("AAPL", JVal.jrec [("dp", PyVal.pnum (1 : ℚ) "1")])]

/-- A decoded cache object lacking the next_update key. -/
def objNoNU : Dict JVal := [("AAPL", JVal.jrec [("dp", PyVal.pnum (1 : ℚ) "1")])]

/-- A fresh snapshot with one record whose percent change is zero. -/
def objZero : Dict JVal :=
  [("next_update", JVal.jtime 100),
   ("ZERO", JVal.jrec [("dp", PyVal.pnum (0 : ℚ) "0")])]

/-- A fresh snapshot with one record whose percent change is negative. -/
def objNeg : Dict JVal :=
  [("next_update", JVal.jtime 100),
   ("NEG", JVal.jrec [("dp", PyVal.pnum (-1 : ℚ) "-1")])]

/-- A fresh snapshot with two records whose rendered strings will collide. -/
def objAB : Dict JVal :=
  [("next_update", JVal.jtime 100),
   ("A", JVal.jrec [("dp", PyVal.pnum (-1 : ℚ) "-1")]),
   ("B", JVal.jrec [("dp", PyVal.pnum (1 : ℚ) "1")])]

/-- Replication of the self-test assertions of the source's main block, as
one evaluation of the embedded format engine. -/
theorem sample_parse_asserts :
    (parse sampleQuote "no specifiers").map Prod.fst = some "no specifiers"
    ∧ (parse sampleQuote "%c").map Prod.fst = some "47.08"
    ∧ (parse sampleQuote "%d").map Prod.fst = some "1.32"
    ∧ (parse sampleQuote "%p").map Prod.fst = some "2.8846"
    ∧ (parse sampleQuote "%h").map Prod.fst = some "47.116"
    ∧ (parse sampleQuote "%l").map Prod.fst = some "46.02"
    ∧ (parse sampleQuote "%o").map Prod.fst = some "46.48"
    ∧ (parse sampleQuote "%C").map Prod.fst = some "45.76"
    ∧ (parse sampleQuote "before %c").map Prod.fst = some "before 47.08"
    ∧ (parse sampleQuote "%c after").map Prod.fst = some "47.08 after"
    ∧ (parse sampleQuote "%4p").map Prod.fst = some "2.88"
    ∧ (parse sampleQuote "%10d").map Prod.fst = some "1.32      "
    ∧ (parse sampleQuote "%-10d").map Prod.fst = some "      1.32"
    ∧ (parse sampleQuote "100%%").map Prod.fst = some "100%"
    ∧ (parse sampleQuote "%4p%%").map Prod.fst = some "2.88%"
    ∧ (parse sampleQuote "MYSTOCK $%c ($%5h)").map Prod.fst = some "MYSTOCK $47.08 ($47.11)"
    ∧ (parse sampleQuote "%.2c").map Prod.fst = some "47.08"
    ∧ (parse sampleQuote "%.3c").map Prod.fst = some "47.080"
    ∧ (parse sampleQuote "%.4c").map Prod.fst = some "47.0800"
    ∧ (parse sampleQuote "%.3p").map Prod.fst = some "2.884"
    ∧ (parse sampleQuote "%.5p").map Prod.fst = some "2.88460"
    ∧ (parse sampleQuote "%8.5p").map Prod.fst = some "2.88460 "
    ∧ (parse sampleQuote "%-8.5p").map Prod.fst = some " 2.88460" := by
  decide

/-! Laws of the dict operations. -/

theorem dictGet_dictSet_self {α : Type} (d : Dict α) (k : String) (v : α) :
    dictGet (dictSet d k v) k = some v := by
  induction d with
  | nil => simp [dictGet, dictSet]
  | cons p d ih =>
    obtain ⟨k', v'⟩ := p
    by_cases h : k' = k
    · subst h; simp [dictGet, dictSet]
    · simp [dictGet, dictSet, h, ih]

theorem dictGet_dictSet_ne {α : Type} (d : Dict α) {k k' : String} (v : α) (h : k' ≠ k) :
    dictGet (dictSet d k v) k' = dictGet d k' := by
  induction d with
  | nil => simp [dictGet, dictSet, Ne.symm h]
  | cons p d ih =>
    obtain ⟨k₀, v₀⟩ := p
    by_cases h0 : k₀ = k
    · subst h0; simp [dictGet, dictSet, Ne.symm h]
    · simp [dictGet, dictSet, h0, ih]

theorem dictSet_idem {α : Type} (d : Dict α) (k : String) (v : α) :
    dictSet (dictSet d k v) k v = dictSet d k v := by
  induction d with
  | nil => simp [dictSet]
  | cons p d ih =>
    obtain ⟨k₀, v₀⟩ := p
    by_cases h : k₀ = k
    · subst h; simp [dictSet]
    · simp [dictSet, h, ih]

theorem dictGet_isSome_iff {α : Type} (d : Dict α) (k : String) :
    (dictGet d k).isSome = true ↔ k ∈ dictKeys d := by
  induction d with
  | nil => simp [dictGet, dictKeys]
  | cons p d ih =>
    obtain ⟨k₀, v₀⟩ := p
    by_cases h : k₀ = k
    · subst h; simp [dictGet, dictKeys]
    · simp [dictGet, dictKeys, h, Ne.symm h, ih]

theorem dictGet_mem {α : Type} {d : Dict α} {k : String} {v : α}
    (h : dictGet d k = some v) : (k, v) ∈ d := by
  induction d with
  | nil => simp [dictGet] at h
  | cons p d ih =>
    obtain ⟨k₀, v₀⟩ := p
    by_cases h0 : k₀ = k
    · subst h0
      simp [dictGet] at h
      exact h ▸ List.mem_cons_self _ _
    · simp [dictGet, h0] at h
      exact List.mem_cons_of_mem _ (ih h)

theorem dictKeys_cons {α : Type} (k : String) (v : α) (d : Dict α) :
    dictKeys ((k, v) :: d) = k :: dictKeys d := rfl

theorem mem_dictKeys_dictSet {α : Type} (d : Dict α) (k m : String) (v : α) :
    m ∈ dictKeys (dictSet d k v) ↔ m = k ∨ m ∈ dictKeys d := by
  induction d with
  | nil => simp [dictSet, dictKeys]
  | cons p d ih =>
    obtain ⟨k₀, v₀⟩ := p
    by_cases h : k₀ = k
    · subst h
      simp [dictSet, dictKeys_cons, List.mem_cons]
    · simp only [dictSet, if_neg h, dictKeys_cons, List.mem_cons, ih]
      tauto

theorem dictKeys_dictSet_of_mem {α : Type} {d : Dict α} {k : String} (v : α)
    (h : k ∈ dictKeys d) : dictKeys (dictSet d k v) = dictKeys d := by
  induction d with
  | nil => simp [dictKeys] at h
  | cons p d ih =>
    obtain ⟨k₀, v₀⟩ := p
    by_cases h0 : k₀ = k
    · subst h0; simp [dictSet, dictKeys]
    · have h' : k ∈ dictKeys d := by
        rw [dictKeys_cons, List.mem_cons] at h
        rcases h with h | h
        · exact absurd h.symm h0
        · exact h
      simp only [dictSet, if_neg h0, dictKeys_cons, ih h']

theorem dictKeys_dictSet_of_not_mem {α : Type} {d : Dict α} {k : String} (v : α)
    (h : k ∉ dictKeys d) : dictKeys (dictSet d k v) = dictKeys d ++ [k] := by
  induction d with
  | nil => simp [dictSet, dictKeys]
  | cons p d ih =>
    obtain ⟨k₀, v₀⟩ := p
    rw [dictKeys_cons, List.mem_cons] at h
    push_neg at h
    simp only [dictSet, if_neg (Ne.symm h.1), dictKeys_cons, ih h.2, List.cons_append]

theorem dictKeys_dictSet_nodup {α : Type} {d : Dict α} (k : String) (v : α)
    (h : (dictKeys d).Nodup) : (dictKeys (dictSet d k v)).Nodup := by
  by_cases hm : k ∈ dictKeys d
  · rw [dictKeys_dictSet_of_mem v hm]; exact h
  · rw [dictKeys_dictSet_of_not_mem v hm]
    simp [List.nodup_append, h, hm]

theorem mem_dictSet_elim {α : Type} {d : Dict α} {k : String} {v : α} {p : String × α}
    (h : p ∈ dictSet d k v) : p ∈ d ∨ p = (k, v) := by
  induction d with
  | nil =>
    simp [dictSet] at h
    exact Or.inr h
  | cons e d ih =>
    obtain ⟨k₀, v₀⟩ := e
    by_cases h0 : k₀ = k
    · subst h0
      simp [dictSet] at h
      rcases h with h | h
      · exact Or.inr h
      · exact Or.inl (List.mem_cons_of_mem _ h)
    · simp only [dictSet, if_neg h0, List.mem_cons] at h
      rcases h with h | h
      · exact Or.inl (by simp [h])
      · rcases ih h with h' | h'
        · exact Or.inl (List.mem_cons_of_mem _ h')
        · exact Or.inr h'

theorem dictKeys_dictDel_sublist {α : Type} (d : Dict α) (k : String) :
    (dictKeys (dictDel d k)).Sublist (dictKeys d) := by
  induction d with
  | nil => simp [dictDel, dictKeys]
  | cons e d ih =>
    obtain ⟨k₀, v₀⟩ := e
    by_cases h : k₀ = k
    · subst h
      simp only [dictDel, if_pos rfl, dictKeys, List.map_cons]
      exact List.sublist_cons_self _ _
    · simpa [dictDel, dictKeys, h] using ih.cons₂ k₀

theorem symSetEq_iff {a b : List String} :
    symSetEq a b = true ↔ (∀ x ∈ a, x ∈ b) ∧ (∀ x ∈ b, x ∈ a) := by
  simp [symSetEq, List.all_eq_true]

/-! Laws of the format-engine scanner. -/

theorem dropWhile_length_le {α : Type} (p : α → Bool) :
    ∀ l : List α, (l.dropWhile p).length ≤ l.length
  | [] => by simp
  | a :: l => by
    by_cases h : p a
    · simp only [List.dropWhile_cons, h, if_true]
      exact (dropWhile_length_le p l).trans (by simp)
    · simp [List.dropWhile_cons, h]

theorem stripMinus_length_le (l : List Char) : (stripMinus l).2.length ≤ l.length := by
  unfold stripMinus
  split
  · simp
  · simp

theorem matchTail_length {rest r : List Char} {sp : FmtSpec}
    (h : matchTail rest = some (sp, r)) : r.length + 1 ≤ rest.length := by
  have hsm := stripMinus_length_le rest
  have hdw := dropWhile_length_le Char.isDigit (stripMinus rest).2
  simp only [matchTail] at h
  split at h
  case h_1 r3 heq =>
    rw [heq] at hdw
    simp at hdw
    split at h
    · exact absurd h (by simp)
    · have hdw3 := dropWhile_length_le Char.isDigit r3
      split at h
      case h_1 c r5 heq2 =>
        rw [heq2] at hdw3
        simp at hdw3
        split at h
        · simp at h
          obtain ⟨h1, h2⟩ := h
          subst h2
          omega
        · exact absurd h (by simp)
      case h_2 heq2 => exact absurd h (by simp)
  case h_2 c r3 heq =>
    rw [heq] at hdw
    simp at hdw
    split at h
    · simp at h
      obtain ⟨h1, h2⟩ := h
      subst h2
      omega
    · exact absurd h (by simp)
  case h_3 heq => exact absurd h (by simp)

theorem matchSpec_length {cs r : List Char} {sp : FmtSpec}
    (h : matchSpec cs = some (sp, r)) : r.length + 2 ≤ cs.length := by
  unfold matchSpec at h
  split at h
  case h_1 rest =>
    have := matchTail_length h
    simp
    omega
  case h_2 => exact absurd h (by simp)

theorem parseAux_fuel : ∀ (fuel : Nat) (qd : QuoteRec) (cs : List Char),
    cs.length ≤ fuel → parseAux (fuel + 1) qd cs = parseAux fuel qd cs
  | fuel, qd, [], _ => by cases fuel <;> rfl
  | 0, _, c :: cs, h => by simp at h
  | fuel + 1, qd, c :: cs, h => by
    have hcs : cs.length ≤ fuel := by
      simp at h
      omega
    simp only [parseAux]
    cases hm : matchSpec (c :: cs) with
    | some pr =>
      obtain ⟨sp, rest⟩ := pr
      have hrest : rest.length ≤ fuel := by
        have := matchSpec_length hm
        simp at this
        omega
      dsimp only
      cases hp : process_specifier qd sp with
      | none => rfl
      | some pr2 =>
        obtain ⟨s, qd2⟩ := pr2
        dsimp only
        rw [parseAux_fuel fuel qd2 rest hrest]
    | none =>
      dsimp only
      rw [parseAux_fuel fuel qd cs hcs]

theorem process_specifier_snd {qd : QuoteRec} {sp : FmtSpec} {s : String} {qd2 : QuoteRec}
    (h : process_specifier qd sp = some (s, qd2)) :
    qd2 = dictSet qd "%" (PyVal.pstr "%") := by
  simp only [process_specifier] at h
  split at h
  · exact absurd h (by simp)
  · simp at h
    exact h.2.symm

theorem parseAux_dict : ∀ (fuel : Nat) (qd : QuoteRec) (cs : List Char)
    (out : String) (qd' : QuoteRec),
    parseAux fuel qd cs = some (out, qd') →
    qd' = qd ∨ qd' = dictSet qd "%" (PyVal.pstr "%")
  | fuel, qd, [], out, qd', h => by
    cases fuel with
    | zero =>
      simp [parseAux] at h
      exact Or.inl h.2.symm
    | succ n =>
      simp [parseAux] at h
      exact Or.inl h.2.symm
  | 0, qd, c :: cs, out, qd', h => by simp [parseAux] at h
  | fuel + 1, qd, c :: cs, out, qd', h => by
    simp only [parseAux] at h
    split at h
    next sp rest hm =>
      split at h
      next hp => simp at h
      next s qd2 hp =>
        split at h
        next hrec => simp at h
        next t qd3 hrec =>
          simp at h
          have h2 := process_specifier_snd hp
          rcases parseAux_dict fuel qd2 rest t qd3 hrec with h3 | h3
          · right; rw [← h.2, h3, h2]
          · right; rw [← h.2, h3, h2, dictSet_idem]
    next hm =>
      split at h
      next hrec => simp at h
      next t qd2 hrec =>
        simp at h
        rcases parseAux_dict fuel qd cs t qd2 hrec with h3 | h3
        · left; rw [← h.2, h3]
        · right; rw [← h.2, h3]

/-! Characterization of the stamping loop and of the fetch loop. -/

theorem stamp_dictSet_comm (ts : List String) :
    ∀ (q : Dict JVal) (t : String) (r : QuoteRec),
      (dictKeys q).Nodup → dictGet q t = some (JVal.jrec r) →
      (dictSet q t (JVal.jrec (dictSet r "ticker" (PyVal.pstr t)))).map (stampOn ts)
        = q.map (stampOn (t :: ts)) := by
  intro q
  induction q with
  | nil =>
    intro t r _ hget
    simp [dictGet] at hget
  | cons e q ih =>
    intro t r hnd hget
    obtain ⟨k₀, v₀⟩ := e
    rw [dictKeys_cons] at hnd
    by_cases h0 : k₀ = t
    · subst h0
      simp only [dictGet, if_pos rfl] at hget
      injection hget with hget
      subst hget
      have hset : dictSet ((k₀, JVal.jrec r) :: q) k₀
          (JVal.jrec (dictSet r "ticker" (PyVal.pstr k₀)))
          = (k₀, JVal.jrec (dictSet r "ticker" (PyVal.pstr k₀))) :: q := by
        simp [dictSet]
      rw [hset, List.map_cons, List.map_cons]
      congr 1
      · by_cases hm : k₀ ∈ ts <;>
          simp [stampOn, stampVal, hm, dictSet_idem]
      · apply List.map_congr_left
        intro p hp
        have hne : p.1 ≠ k₀ := by
          intro hh
          exact (List.nodup_cons.mp hnd).1 (hh ▸ (List.mem_map_of_mem Prod.fst hp))
        simp [stampOn, List.mem_cons, hne]
    · simp only [dictGet, if_neg h0] at hget
      simp only [dictSet, if_neg h0, List.map_cons]
      congr 1
      · have hne : k₀ ≠ t := h0
        simp [stampOn, List.mem_cons, hne]
      · exact ih t r (List.nodup_cons.mp hnd).2 hget

theorem stampAll_eq : ∀ (ts : List String) (quotes : Dict JVal),
    (dictKeys quotes).Nodup →
    (∀ t ∈ ts, ∃ r, dictGet quotes t = some (JVal.jrec r)) →
    stampAll quotes ts = Except.ok (quotes.map (stampOn ts))
  | [], quotes, _, _ => by
    simp only [stampAll]
    have : quotes.map (stampOn []) = quotes := by
      apply List.map_congr_left ?_ |>.trans (List.map_id _)
      intro p _
      simp [stampOn]
    rw [this]
  | t :: ts, quotes, hnd, hlk => by
    obtain ⟨r, hr⟩ := hlk t (List.mem_cons_self t ts)
    have h1 : stampOne quotes t
        = Except.ok (dictSet quotes t (JVal.jrec (dictSet r "ticker" (PyVal.pstr t)))) := by
      simp [stampOne, hr]
    have hmem : t ∈ dictKeys quotes := by
      rw [← dictGet_isSome_iff]
      simp [hr]
    have hnd' : (dictKeys (dictSet quotes t
        (JVal.jrec (dictSet r "ticker" (PyVal.pstr t))))).Nodup := by
      rw [dictKeys_dictSet_of_mem _ hmem]
      exact hnd
    have hlk' : ∀ t' ∈ ts, ∃ r', dictGet (dictSet quotes t
        (JVal.jrec (dictSet r "ticker" (PyVal.pstr t)))) t' = some (JVal.jrec r') := by
      intro t' ht'
      by_cases h : t' = t
      · subst h
        exact ⟨_, dictGet_dictSet_self _ _ _⟩
      · rw [dictGet_dictSet_ne _ _ h]
        exact hlk t' (List.mem_cons_of_mem _ ht')
    calc stampAll quotes (t :: ts)
        = stampAll (dictSet quotes t (JVal.jrec (dictSet r "ticker" (PyVal.pstr t)))) ts := by
          simp [stampAll, h1]
      _ = Except.ok ((dictSet quotes t
            (JVal.jrec (dictSet r "ticker" (PyVal.pstr t)))).map (stampOn ts)) :=
          stampAll_eq ts _ hnd' hlk'
      _ = Except.ok (quotes.map (stampOn (t :: ts))) := by
          rw [stamp_dictSet_comm ts quotes t r hnd hr]

theorem updateCacheLoop_eq_buildAcc (src : QuoteSource) (key : String) :
    ∀ (ts : List String) (acc : Dict JVal) (st : St),
      (∀ t ∈ ts, (src key t).isSome) →
      updateCacheLoop src key ts acc st
        = (Except.ok (buildAcc src key ts acc),
           ⟨CacheFile.valid (buildAcc src key ts acc), st.fetchCount + ts.length⟩)
  | [], acc, st, _ => by simp [updateCacheLoop, buildAcc]
  | t :: ts, acc, st, hs => by
    have h := hs t (List.mem_cons_self t ts)
    cases hsrc : src key t with
    | none => rw [hsrc] at h; simp at h
    | some q =>
      have hrec := updateCacheLoop_eq_buildAcc src key ts
        (dictSet acc t (JVal.jrec (dictSet q "ticker" (PyVal.pstr t))))
        ⟨st.file, st.fetchCount + 1⟩
        (fun t' ht' => hs t' (List.mem_cons_of_mem _ ht'))
      simp only [updateCacheLoop, get_rest_quote, hsrc, Option.map_some'] at hrec ⊢
      rw [hrec]
      simp only [buildAcc, hsrc, Option.getD_some, List.length_cons]
      have harith : st.fetchCount + 1 + ts.length = st.fetchCount + (ts.length + 1) := by
        omega
      rw [harith]

theorem buildAcc_cons_notmem (src : QuoteSource) (key : String) :
    ∀ (ts : List String) (e : String × JVal) (acc : Dict JVal),
      e.1 ∉ ts → buildAcc src key ts (e :: acc) = e :: buildAcc src key ts acc
  | [], e, acc, _ => rfl
  | t :: ts, e, acc, h => by
    obtain ⟨k₀, v₀⟩ := e
    have h1 : k₀ ≠ t := fun hh => h (by simp [hh])
    have h2 : ((k₀, v₀) : String × JVal).1 ∉ ts := fun hh => h (by simp at hh ⊢; exact Or.inr hh)
    simp only [buildAcc, dictSet, if_neg h1]
    exact buildAcc_cons_notmem src key ts (k₀, v₀) _ h2

theorem mem_dictKeys_buildAcc (src : QuoteSource) (key : String) :
    ∀ (ts : List String) (acc : Dict JVal) (m : String),
      m ∈ dictKeys (buildAcc src key ts acc) ↔ m ∈ dictKeys acc ∨ m ∈ ts
  | [], acc, m => by simp [buildAcc]
  | t :: ts, acc, m => by
    simp only [buildAcc]
    rw [mem_dictKeys_buildAcc src key ts _ m, mem_dictKeys_dictSet]
    simp [List.mem_cons]
    tauto

theorem mem_buildAcc_elim (src : QuoteSource) (key : String) :
    ∀ (ts : List String) (acc : Dict JVal) (p : String × JVal),
      p ∈ buildAcc src key ts acc →
      p ∈ acc ∨ ∃ t ∈ ts,
        p = (t, JVal.jrec (dictSet ((src key t).getD []) "ticker" (PyVal.pstr t)))
  | [], acc, p, h => Or.inl h
  | t :: ts, acc, p, h => by
    simp only [buildAcc] at h
    rcases mem_buildAcc_elim src key ts _ p h with h' | ⟨t', ht', hp⟩
    · rcases mem_dictSet_elim h' with h'' | h''
      · exact Or.inl h''
      · exact Or.inr ⟨t, List.mem_cons_self t ts, h''⟩
    · exact Or.inr ⟨t', List.mem_cons_of_mem _ ht', hp⟩

theorem buildAcc_nodup (src : QuoteSource) (key : String) :
    ∀ (ts : List String) (acc : Dict JVal),
      (dictKeys acc).Nodup → (dictKeys (buildAcc src key ts acc)).Nodup
  | [], _, h => h
  | t :: ts, acc, h =>
    buildAcc_nodup src key ts _ (dictKeys_dictSet_nodup _ _ h)

/-! Claim theorems. -/

/-- Claim C2 (counterexample): on a cache file whose contents decode to a
JSON object lacking the next_update key, get_cached_quotes raises a KeyError
at quotes['next_update'] instead of discarding the snapshot and refreshing;
the forced refresh the claim describes would have succeeded on the same
inputs, as the second conjunct shows. -/
theorem C2_missing_key_cex :
    get_cached_quotes srcStub "k" 5 0 ["AAPL"] ⟨CacheFile.valid objNoNU, 0⟩
      = (Except.error PyErr.keyError, ⟨CacheFile.valid objNoNU, 0⟩)
    ∧ (refreshAndStrip srcStub "k" 5 0 ["AAPL"] ⟨CacheFile.valid objNoNU, 0⟩).1
      = Except.ok [("AAPL", JVal.jrec
          [("dp", PyVal.pnum (1 : ℚ) "1"), ("ticker", PyVal.pstr "AAPL")])] := by
  decide

/-- Claim C2 (amended): a cache file whose contents are valid JSON but lack
the next_update key is not treated like a decode failure: get_cached_quotes
raises the KeyError from quotes['next_update'], performs no refresh, and
leaves the whole state (cache file and fetch count) untouched. -/
theorem C2_missing_key_keyerror (src : QuoteSource) (key : String)
    (interval now : ℚ) (tickers : List String) (st : St) (obj : Dict JVal)
    (hfile : st.file = CacheFile.valid obj)
    (hmiss : dictGet obj "next_update" = none) :
    get_cached_quotes src key interval now tickers st
      = (Except.error PyErr.keyError, st) := by
  simp [get_cached_quotes, hfile, hmiss]

/-- Witness for C2_missing_key_keyerror at a concrete snapshot. -/
theorem C2_missing_key_keyerror_witness :
    get_cached_quotes srcStub "k" 5 0 ["MSFT"] ⟨CacheFile.valid objNoNU, 3⟩
      = (Except.error PyErr.keyError, ⟨CacheFile.valid objNoNU, 3⟩) :=
  C2_missing_key_keyerror srcStub "k" 5 0 ["MSFT"] ⟨CacheFile.valid objNoNU, 3⟩
    objNoNU rfl (by decide)

/-- Claim C4: with a well-formed persisted snapshot whose stored symbol set
differs from the tracked set, get_cached_quotes performs a forced refresh
via update_cache and returns its (stripped) result — unconditionally, for
every stored deadline nu, so regardless of freshness. -/
theorem C4_symbol_drift_refresh (src : QuoteSource) (key : String)
    (interval now : ℚ) (tickers : List String) (st : St) (obj : Dict JVal) (nu : ℤ)
    (hfile : st.file = CacheFile.valid obj)
    (hnu : dictGet obj "next_update" = some (JVal.jtime nu))
    (hsets : symSetEq (dictKeys (dictDel obj "next_update")) tickers = false) :
    get_cached_quotes src key interval now tickers st
      = refreshAndStrip src key interval now tickers st := by
  simp [get_cached_quotes, hfile, hnu, hsets]

/-- Witness for C4_symbol_drift_refresh: tracked set {MSFT}, stored {AAPL}. -/
theorem C4_symbol_drift_refresh_witness :
    get_cached_quotes srcStub "k" 5 0 ["MSFT"] ⟨CacheFile.valid objAAPL, 2⟩
      = refreshAndStrip srcStub "k" 5 0 ["MSFT"] ⟨CacheFile.valid objAAPL, 2⟩ :=
  C4_symbol_drift_refresh srcStub "k" 5 0 ["MSFT"] ⟨CacheFile.valid objAAPL, 2⟩
    objAAPL 100 rfl (by decide) (by decide)

/-- The fetch loop with a failing symbol somewhere ahead: the error
propagates and the cache file is never touched. -/
theorem updateCacheLoop_fail (src : QuoteSource) (key : String) :
    ∀ (ts : List String) (acc : Dict JVal) (st : St),
      (∃ t ∈ ts, src key t = none) →
      (updateCacheLoop src key ts acc st).1 = Except.error PyErr.fetchError
      ∧ (updateCacheLoop src key ts acc st).2.file = st.file
  | [], _, _, h => by simp at h
  | t :: ts, acc, st, h => by
    cases hsrc : src key t with
    | none => simp [updateCacheLoop, get_rest_quote, hsrc]
    | some q =>
      have h' : ∃ t' ∈ ts, src key t' = none := by
        obtain ⟨t', ht', hn⟩ := h
        rcases List.mem_cons.mp ht' with rfl | ht''
        · rw [hsrc] at hn
          exact absurd hn (by simp)
        · exact ⟨t', ht'', hn⟩
      have hrec := updateCacheLoop_fail src key ts
        (dictSet acc t (JVal.jrec (dictSet q "ticker" (PyVal.pstr t))))
        ⟨st.file, st.fetchCount + 1⟩ h'
      simpa [updateCacheLoop, get_rest_quote, hsrc] using hrec

/-- Claim C5: if the quote source fails for any symbol in the tracked list,
update_cache propagates the fetch error and persists nothing: the on-disk
cache file after the call is exactly the one from before, so a later read
still sees the old snapshot. -/
theorem C5_fetch_failure_no_write (src : QuoteSource) (key : String)
    (interval now : ℚ) (tickers : List String) (st : St)
    (hfail : ∃ t ∈ tickers, src key t = none) :
    (update_cache src key interval now tickers st).1 = Except.error PyErr.fetchError
    ∧ (update_cache src key interval now tickers st).2.file = st.file :=
  updateCacheLoop_fail src key tickers _ st hfail

/-- Witness for C5_fetch_failure_no_write with a failing source and a
pre-existing snapshot on disk. -/
theorem C5_fetch_failure_no_write_witness :
    (update_cache srcFail "k" 5 0 ["AAPL"] ⟨CacheFile.valid objAAPL, 0⟩).1
      = Except.error PyErr.fetchError
    ∧ (update_cache srcFail "k" 5 0 ["AAPL"] ⟨CacheFile.valid objAAPL, 0⟩).2.file
      = CacheFile.valid objAAPL :=
  C5_fetch_failure_no_write srcFail "k" 5 0 ["AAPL"] ⟨CacheFile.valid objAAPL, 0⟩
    ⟨"AAPL", by decide, rfl⟩

/-- Claim C6: a specifier carrying a precision p renders the selected field
by the textual rule of process_specifier.  When the stringified value
contains a decimal point (at index d, with a characters after it): if p - a
is positive, exactly that many '0' characters are appended, otherwise the
text is truncated to d + 1 + p characters — textual truncation, never
numeric rounding; a value without a decimal point is unaffected by the
precision.  In particular "%.3c" renders current 47.08 as "47.080" and
"%.5p" renders percentChange 2.8846 as "2.88460". -/
theorem C6_precision :
    (∀ (qd : QuoteRec) (sp : FmtSpec) (p : Nat) (v : PyVal),
      sp.prec = some p →
      dictGet (dictSet qd "%" (PyVal.pstr "%")) (specifier_to_key sp.spec) = some v →
      process_specifier qd sp
        = some (String.mk (applyWidth sp.width sp.minus
            (if '.' ∈ v.toStr.toList then
              (if v.toStr.toList.length
                    - (v.toStr.toList.takeWhile (· != '.')).length - 1 < p
               then v.toStr.toList ++ List.replicate
                 (p - (v.toStr.toList.length
                    - (v.toStr.toList.takeWhile (· != '.')).length - 1)) '0'
               else v.toStr.toList.take
                 ((v.toStr.toList.takeWhile (· != '.')).length + 1 + p))
             else v.toStr.toList)),
            dictSet qd "%" (PyVal.pstr "%")))
    ∧ (parse sampleQuote "%.3c").map Prod.fst = some "47.080"
    ∧ (parse sampleQuote "%.5p").map Prod.fst = some "2.88460" := by
  refine ⟨?_, by decide, by decide⟩
  intro qd sp p v hp hv
  simp only [process_specifier, hv, applyPrec, hp]

/-- Witness for the general part of C6_precision: "%.3c" against the sample
record pads "47.08" to "47.080". -/
theorem C6_precision_witness :
    process_specifier sampleQuote ⟨false, none, some 3, 'c'⟩
      = some ("47.080", dictSet sampleQuote "%" (PyVal.pstr "%")) := by
  have h := C6_precision.1 sampleQuote ⟨false, none, some 3, 'c'⟩ 3
    (PyVal.pnum ratC "47.08") rfl (by decide)
  exact h.trans (by decide)

/-- Claim C7: a specifier carrying a width w renders the (possibly
precision-adjusted) text by the width rule of process_specifier: a longer
text is truncated left-anchored to exactly w characters, a shorter one is
space-padded to exactly w characters, on the left when the '-' flag is
present (which means right-justify, inverted from conventional printf) and
on the right when it is absent.  In particular "%10d" renders change 1.32 as
"1.32      " and "%-10d" renders it as "      1.32". -/
theorem C7_width :
    (∀ (qd : QuoteRec) (sp : FmtSpec) (w : Nat) (v : PyVal),
      sp.width = some w →
      dictGet (dictSet qd "%" (PyVal.pstr "%")) (specifier_to_key sp.spec) = some v →
      process_specifier qd sp
        = some (String.mk
            (if w < (applyPrec sp.prec v.toStr.toList).length
             then (applyPrec sp.prec v.toStr.toList).take w
             else if sp.minus
               then List.replicate (w - (applyPrec sp.prec v.toStr.toList).length) ' '
                 ++ applyPrec sp.prec v.toStr.toList
               else applyPrec sp.prec v.toStr.toList
                 ++ List.replicate (w - (applyPrec sp.prec v.toStr.toList).length) ' '),
            dictSet qd "%" (PyVal.pstr "%")))
    ∧ (parse sampleQuote "%10d").map Prod.fst = some "1.32      "
    ∧ (parse sampleQuote "%-10d").map Prod.fst = some "      1.32" := by
  refine ⟨?_, by decide, by decide⟩
  intro qd sp w v hw hv
  simp only [process_specifier, hv, applyWidth, hw]

/-- Witness for the general part of C7_width: "%10d" against the sample
record pads "1.32" on the right to ten columns. -/
theorem C7_width_witness :
    process_specifier sampleQuote ⟨false, some 10, none, 'd'⟩
      = some ("1.32      ", dictSet sampleQuote "%" (PyVal.pstr "%")) := by
  have h := C7_width.1 sampleQuote ⟨false, some 10, none, 'd'⟩ 10
    (PyVal.pnum ratD "1.32") rfl (by decide)
  exact h.trans (by decide)

/-- Claim C9 (counterexample): rendering is not pure with respect to the
quote record: parsing "%c" against the sample record hands back a record
with the literal-percent key appended — a key was added to the caller's
record, contradicting the claim that no key is added, removed or modified. -/
theorem C9_parse_mutation_cex :
    parse sampleQuote "%c"
      = some ("47.08", sampleQuote ++ [("%", PyVal.pstr "%")])
    ∧ sampleQuote ++ [("%", PyVal.pstr "%")] ≠ sampleQuote := by
  decide

/-- Claim C9 (amended): process_specifier mutates the record only by binding
the key "%" to the literal "%" (the line quote_data['%'] = '%'): whenever
parse succeeds, the record it returns is either the unchanged input (no
specifier was processed) or exactly dictSet qd "%" "%", and the binding of
every key other than "%" is untouched. -/
theorem C9_parse_mutation (qd : QuoteRec) (fmt : String) (out : String) (qd' : QuoteRec)
    (h : parse qd fmt = some (out, qd')) :
    (qd' = qd ∨ qd' = dictSet qd "%" (PyVal.pstr "%"))
    ∧ ∀ k : String, k ≠ "%" → dictGet qd' k = dictGet qd k := by
  have h1 := parseAux_dict _ qd fmt.toList out qd' h
  refine ⟨h1, ?_⟩
  intro k hk
  rcases h1 with h1 | h1
  · rw [h1]
  · rw [h1, dictGet_dictSet_ne _ _ hk]

/-- Witness for C9_parse_mutation at the "%c" run on the sample record. -/
theorem C9_parse_mutation_witness :
    sampleQuote ++ [("%", PyVal.pstr "%")] = sampleQuote
      ∨ sampleQuote ++ [("%", PyVal.pstr "%")] = dictSet sampleQuote "%" (PyVal.pstr "%") :=
  (C9_parse_mutation sampleQuote "%c" "47.08"
    (sampleQuote ++ [("%", PyVal.pstr "%")]) (by decide)).1

/-- Claim C8 (counterexample): a record whose percent change is 0 — a
non-positive value, which the claim says must map to 0 — is classified 1:
get_ticker_data on a fresh snapshot holding dp = 0 returns its display
string mapped to 1, not 0. -/
theorem C8_classification_cex :
    (get_ticker_data srcStub "k" 5 0 [("ZERO", "%t")]
      ⟨CacheFile.valid objZero, 0⟩).1 = Except.ok [("ZERO", 1)]
    ∧ ¬ (get_ticker_data srcStub "k" 5 0 [("ZERO", "%t")]
      ⟨CacheFile.valid objZero, 0⟩).1 = Except.ok [("ZERO", 0)] := by
  decide

/-- Claim C8 (amended): the classification get_ticker_data writes is 0
exactly when the record's percent change is strictly negative and 1 exactly
when it is non-negative — zero counts as up, not down.  Concretely, a
negative-dp record renders to 0 and a zero-dp record renders to 1. -/
theorem C8_classification :
    (∀ dp : ℚ, (classify dp = 0 ↔ dp < 0) ∧ (classify dp = 1 ↔ 0 ≤ dp))
    ∧ (get_ticker_data srcStub "k" 5 0 [("NEG", "%t")]
        ⟨CacheFile.valid objNeg, 0⟩).1 = Except.ok [("NEG", 0)]
    ∧ (get_ticker_data srcStub "k" 5 0 [("ZERO", "%t")]
        ⟨CacheFile.valid objZero, 4⟩).1 = Except.ok [("ZERO", 1)] := by
  refine ⟨?_, by decide, by decide⟩
  intro dp
  by_cases h : dp < 0
  · simp [classify, h, not_le.mpr h]
  · simp [classify, h, not_lt.mp h]

/-- Claim C10: the result of get_ticker_data is keyed by the rendered
display string, not by symbol: when two distinct symbols render to the same
display string, the loop keeps a single entry for that string, carrying the
classification of the symbol processed last, so the result can have strictly
fewer entries than the portfolio.  The concrete run renders symbols A and B
both to "same" and keeps only B's classification. -/
theorem C10_display_key_collision :
    (∀ (portfolio : Dict String) (s₁ s₂ : String) (r₁ r₂ : QuoteRec)
       (fmt₁ fmt₂ out : String) (r₁' r₂' : QuoteRec) (q₁ q₂ : ℚ) (rep₁ rep₂ : String),
      s₁ ≠ s₂ →
      dictGet portfolio s₁ = some fmt₁ →
      dictGet portfolio s₂ = some fmt₂ →
      parse r₁ fmt₁ = some (out, r₁') →
      parse r₂ fmt₂ = some (out, r₂') →
      dictGet r₁' "dp" = some (PyVal.pnum q₁ rep₁) →
      dictGet r₂' "dp" = some (PyVal.pnum q₂ rep₂) →
      tickerLoop portfolio [(s₁, JVal.jrec r₁), (s₂, JVal.jrec r₂)] []
        = Except.ok [(out, classify q₂)])
    ∧ (get_ticker_data srcStub "k" 5 0 [("A", "same"), ("B", "same")]
        ⟨CacheFile.valid objAB, 0⟩).1
      = Except.ok [("same", 1)]
    ∧ ([("A", "same"), ("B", "same")] : Dict String).length = 2 := by
  refine ⟨?_, by decide, by decide⟩
  intro portfolio s₁ s₂ r₁ r₂ fmt₁ fmt₂ out r₁' r₂' q₁ q₂ rep₁ rep₂
    hne h1 h2 hp1 hp2 hd1 hd2
  simp only [tickerLoop, h1, h2, hp1, hp2, hd1, hd2]
  simp [dictSet]

/-- Witness for the general part of C10_display_key_collision: two symbols
with the literal format "same" collapse to one entry classified by the
second record. -/
theorem C10_display_key_collision_witness :
    tickerLoop [("A", "same"), ("B", "same")]
      [("A", JVal.jrec [("dp", PyVal.pnum (-1 : ℚ) "-1")]),
       ("B", JVal.jrec [("dp", PyVal.pnum (1 : ℚ) "1")])] []
      = Except.ok [("same", classify 1)] :=
  C10_display_key_collision.1 [("A", "same"), ("B", "same")] "A" "B"
    [("dp", PyVal.pnum (-1 : ℚ) "-1")] [("dp", PyVal.pnum (1 : ℚ) "1")]
    "same" "same" "same"
    [("dp", PyVal.pnum (-1 : ℚ) "-1")] [("dp", PyVal.pnum (1 : ℚ) "1")]
    (-1) 1 "-1" "1" (by decide) (by decide) (by decide) (by decide) (by decide)
    (by decide) (by decide)

/-- Claim C1: for every persisted snapshot whose stored symbol set equals
the caller's tracked symbol set exactly (as sets, order irrelevant) and
whose deadline is strictly later than the current time, get_cached_quotes
returns exactly the persisted quote records, unchanged except that each
record's 'ticker' field is overwritten with its tracked key, and it performs
zero calls to the quote source. -/
theorem C1_fresh_cache_hit (src : QuoteSource) (key : String)
    (interval now : ℚ) (tickers : List String) (st : St) (obj : Dict JVal) (nu : ℤ)
    (hfile : st.file = CacheFile.valid obj)
    (hnu : dictGet obj "next_update" = some (JVal.jtime nu))
    (hnodup : (dictKeys obj).Nodup)
    (hrec : ∀ p ∈ dictDel obj "next_update", ∃ r, p.2 = JVal.jrec r)
    (hsets : symSetEq (dictKeys (dictDel obj "next_update")) tickers = true)
    (hfresh : now < (nu : ℚ)) :
    (get_cached_quotes src key interval now tickers st).1
      = Except.ok ((dictDel obj "next_update").map stampVal)
    ∧ (get_cached_quotes src key interval now tickers st).2.fetchCount
      = st.fetchCount := by
  have hiff := symSetEq_iff.mp hsets
  by_cases hq : dictDel obj "next_update" = []
  · have htick : tickers = [] := by
      rw [List.eq_nil_iff_forall_not_mem]
      intro x hx
      have hmem := hiff.2 x hx
      rw [hq] at hmem
      simp [dictKeys] at hmem
    subst htick
    have hres : get_cached_quotes src key interval now [] st
        = (Except.ok [],
           ⟨CacheFile.valid [("next_update", JVal.jtime (calc_next_update interval now))],
            st.fetchCount⟩) := by
      simp [get_cached_quotes, hfile, hnu, hq, refreshAndStrip, update_cache,
        updateCacheLoop, dictDel]
    rw [hq, hres]
    simp
  · have hnodup' : (dictKeys (dictDel obj "next_update")).Nodup :=
      (dictKeys_dictDel_sublist obj "next_update").nodup hnodup
    have hlk : ∀ t ∈ tickers, ∃ r,
        dictGet (dictDel obj "next_update") t = some (JVal.jrec r) := by
      intro t ht
      have hmem : t ∈ dictKeys (dictDel obj "next_update") := hiff.2 t ht
      rw [← dictGet_isSome_iff] at hmem
      obtain ⟨v, hv⟩ := Option.isSome_iff_exists.mp hmem
      obtain ⟨r, hr⟩ := hrec (t, v) (dictGet_mem hv)
      have hr' : v = JVal.jrec r := hr
      exact ⟨r, by rw [hv, hr']⟩
    have hstamp := stampAll_eq tickers (dictDel obj "next_update") hnodup' hlk
    have hmapeq : (dictDel obj "next_update").map (stampOn tickers)
        = (dictDel obj "next_update").map stampVal := by
      apply List.map_congr_left
      intro p hp
      have hpm : p.1 ∈ tickers := hiff.1 p.1 (List.mem_map_of_mem Prod.fst hp)
      simp [stampOn, hpm]
    rw [hmapeq] at hstamp
    have hres : get_cached_quotes src key interval now tickers st
        = (Except.ok ((dictDel obj "next_update").map stampVal), st) := by
      simp only [get_cached_quotes, hfile, hnu]
      rw [if_pos (⟨hq, hsets⟩ : dictDel obj "next_update" ≠ [] ∧
          symSetEq (dictKeys (dictDel obj "next_update")) tickers = true)]
      rw [hstamp]
      simp only [if_pos hfresh]
    rw [hres]
    exact ⟨rfl, rfl⟩

/-- Witness for C1_fresh_cache_hit: a fresh one-symbol snapshot is returned
stamped, with the fetch count untouched. -/
theorem C1_fresh_cache_hit_witness :
    (get_cached_quotes srcStub "k" 5 0 ["AAPL"] ⟨CacheFile.valid objAAPL, 7⟩).1
      = Except.ok ((dictDel objAAPL "next_update").map stampVal)
    ∧ (get_cached_quotes srcStub "k" 5 0 ["AAPL"] ⟨CacheFile.valid objAAPL, 7⟩).2.fetchCount
      = 7 :=
  C1_fresh_cache_hit srcStub "k" 5 0 ["AAPL"] ⟨CacheFile.valid objAAPL, 7⟩ objAAPL 100
    rfl (by decide) (by decide)
    (by
      intro p hp
      simp [objAAPL, dictDel] at hp
      subst hp
      exact ⟨_, rfl⟩)
    (by decide) (by decide)

/-- Claim C3 (counterexample): with the tracked symbol list ["next_update"]
the fetch loop of update_cache overwrites the bookkeeping entry with that
symbol's quote record, so the snapshot just written holds a record object
under next_update, and the immediately following get_cached_quotes raises a
TypeError at strptime instead of returning the mapping just written. -/
theorem C3_roundtrip_cex :
    update_cache srcStub "k" 5 0 ["next_update"] ⟨CacheFile.absent, 0⟩
      = (Except.ok [("next_update", JVal.jrec
          [("dp", PyVal.pnum (1 : ℚ) "1"), ("ticker", PyVal.pstr "next_update")])],
         ⟨CacheFile.valid [("next_update", JVal.jrec
          [("dp", PyVal.pnum (1 : ℚ) "1"), ("ticker", PyVal.pstr "next_update")])], 1⟩)
    ∧ (get_cached_quotes srcStub "k" 5 0 ["next_update"]
        ⟨CacheFile.valid [("next_update", JVal.jrec
          [("dp", PyVal.pnum (1 : ℚ) "1"), ("ticker", PyVal.pstr "next_update")])], 1⟩).1
      = Except.error PyErr.typeError := by
  decide

/-- Claim C3 (amended): for every tracked symbol list none of whose symbols
equals the bookkeeping key next_update, every credential and every positive
refresh interval, if every fetch succeeds and update_cache writes the
snapshot Q, then an immediate get_cached_quotes with the same symbol list —
at any current time still strictly before the stored deadline — returns
exactly Q with only the next_update bookkeeping key removed. -/
theorem C3_roundtrip (src : QuoteSource) (key : String)
    (interval now₁ now₂ : ℚ) (tickers : List String) (st : St)
    (Q : Dict JVal) (st₁ : St)
    (hnp : "next_update" ∉ tickers)
    (hfetch : ∀ t ∈ tickers, (src key t).isSome)
    (hpos : 0 < interval)
    (hfresh : now₂ < ((calc_next_update interval now₁ : ℤ) : ℚ))
    (hupd : update_cache src key interval now₁ tickers st = (Except.ok Q, st₁)) :
    (get_cached_quotes src key interval now₂ tickers st₁).1
      = Except.ok (dictDel Q "next_update") := by
  have hloop := updateCacheLoop_eq_buildAcc src key tickers
    [("next_update", JVal.jtime (calc_next_update interval now₁))] st hfetch
  rw [update_cache, hloop] at hupd
  have hQ : Q = buildAcc src key tickers
      [("next_update", JVal.jtime (calc_next_update interval now₁))] := by
    have h := congrArg Prod.fst hupd
    simp at h
    exact h.symm
  have hst₁ : st₁ = ⟨CacheFile.valid (buildAcc src key tickers
      [("next_update", JVal.jtime (calc_next_update interval now₁))]),
      st.fetchCount + tickers.length⟩ := by
    have h := congrArg Prod.snd hupd
    simp at h
    exact h.symm
  have hsplit : buildAcc src key tickers
      [("next_update", JVal.jtime (calc_next_update interval now₁))]
      = ("next_update", JVal.jtime (calc_next_update interval now₁))
        :: buildAcc src key tickers [] :=
    buildAcc_cons_notmem src key tickers
      ("next_update", JVal.jtime (calc_next_update interval now₁)) [] hnp
  subst hQ
  subst hst₁
  rw [hsplit]
  by_cases htk : tickers = []
  · subst htk
    simp [get_cached_quotes, buildAcc, dictGet, dictDel, refreshAndStrip,
      update_cache, updateCacheLoop]
  · have hmemkeys : ∀ m, m ∈ dictKeys (buildAcc src key tickers []) ↔ m ∈ tickers := by
      intro m
      rw [mem_dictKeys_buildAcc]
      simp [dictKeys]
    have hne : buildAcc src key tickers [] ≠ [] := by
      obtain ⟨t₀, ht₀⟩ := List.exists_mem_of_ne_nil tickers htk
      intro hcontra
      have := (hmemkeys t₀).mpr ht₀
      rw [hcontra] at this
      simp [dictKeys] at this
    have hsets : symSetEq (dictKeys (buildAcc src key tickers [])) tickers = true :=
      symSetEq_iff.mpr
        ⟨fun x hx => (hmemkeys x).mp hx, fun x hx => (hmemkeys x).mpr hx⟩
    have hnodup : (dictKeys (buildAcc src key tickers [])).Nodup :=
      buildAcc_nodup src key tickers [] (by simp [dictKeys])
    have hlk : ∀ t ∈ tickers, ∃ r,
        dictGet (buildAcc src key tickers []) t = some (JVal.jrec r) := by
      intro t ht
      have hmem : t ∈ dictKeys (buildAcc src key tickers []) := (hmemkeys t).mpr ht
      rw [← dictGet_isSome_iff] at hmem
      obtain ⟨v, hv⟩ := Option.isSome_iff_exists.mp hmem
      rcases mem_buildAcc_elim src key tickers [] (t, v) (dictGet_mem hv) with h | ⟨t', _, hp⟩
      · simp at h
      · have hv' : v = JVal.jrec
            (dictSet ((src key t').getD []) "ticker" (PyVal.pstr t')) := by
          have := congrArg Prod.snd hp
          simpa using this
        exact ⟨_, by rw [hv, hv']⟩
    have hstamp := stampAll_eq tickers (buildAcc src key tickers []) hnodup hlk
    have hfix : (buildAcc src key tickers []).map (stampOn tickers)
        = buildAcc src key tickers [] := by
      apply List.map_congr_left ?_ |>.trans (List.map_id _)
      intro p hp
      rcases mem_buildAcc_elim src key tickers [] p hp with h | ⟨t', ht', hp'⟩
      · simp at h
      · subst hp'
        simp [stampOn, stampVal, ht', dictSet_idem]
    rw [hfix] at hstamp
    simp only [get_cached_quotes]
    have hget : dictGet
        (("next_update", JVal.jtime (calc_next_update interval now₁))
          :: buildAcc src key tickers []) "next_update"
        = some (JVal.jtime (calc_next_update interval now₁)) := by
      simp [dictGet]
    have hdel : dictDel
        (("next_update", JVal.jtime (calc_next_update interval now₁))
          :: buildAcc src key tickers []) "next_update"
        = buildAcc src key tickers [] := by
      simp [dictDel]
    simp only [hget, hdel]
    rw [if_pos (⟨hne, hsets⟩ : buildAcc src key tickers [] ≠ [] ∧
        symSetEq (dictKeys (buildAcc src key tickers [])) tickers = true)]
    rw [hstamp]
    simp only [if_pos hfresh]

/-- Witness for C3_roundtrip: after a successful one-symbol refresh, the
immediate re-read returns the snapshot just written minus its bookkeeping
key. -/
theorem C3_roundtrip_witness :
    (get_cached_quotes srcStub "k" 5 0 ["AAPL"]
      ⟨CacheFile.valid [("next_update", JVal.jtime 300),
        ("AAPL", JVal.jrec [("dp", PyVal.pnum (1 : ℚ) "1"),
          ("ticker", PyVal.pstr "AAPL")])], 1⟩).1
      = Except.ok (dictDel [("next_update", JVal.jtime 300),
        ("AAPL", JVal.jrec [("dp", PyVal.pnum (1 : ℚ) "1"),
          ("ticker", PyVal.pstr "AAPL")])] "next_update") := by
  have hcalc : calc_next_update 5 0 = 300 := by
    norm_num [calc_next_update]
  refine C3_roundtrip srcStub "k" 5 0 0 ["AAPL"] ⟨CacheFile.absent, 0⟩
    [("next_update", JVal.jtime 300),
     ("AAPL", JVal.jrec [("dp", PyVal.pnum (1 : ℚ) "1"),
       ("ticker", PyVal.pstr "AAPL")])]
    ⟨CacheFile.valid [("next_update", JVal.jtime 300),
      ("AAPL", JVal.jrec [("dp", PyVal.pnum (1 : ℚ) "1"),
        ("ticker", PyVal.pstr "AAPL")])], 1⟩
    (by decide) (by decide) (by decide) ?_ ?_
  · rw [hcalc]
    decide
  · simp only [update_cache, hcalc]
    decide

/-- Witness for the general part of C8_classification at dp = -1. -/
theorem C8_classification_witness :
    (classify (-1) = 0 ↔ (-1 : ℚ) < 0) ∧ (classify (-1) = 1 ↔ (0 : ℚ) ≤ -1) :=
  C8_classification.1 (-1)
